import Mathlib

/-!
Shallow embedding of the spotify-control CLI (src/main.rs) and proofs about
its metadata extraction, track formatting and play-request resolution logic.

Conventions of the embedding:
* Rust panics (`unwrap`) are modelled by `Option` / an explicit `panicked`
  outcome: `none` or `Outcome.panicked` means the Rust code aborts.
* D-Bus `OwnedValue`s are modelled by the inductive `OwnedValue` covering the
  shapes the conversion code distinguishes (string, string list, dict, other).
* The interactive stdin read is modelled by passing the line that would be
  read; `parseUsize` models `input.trim().parse::<usize>()`.
-/

set_option linter.unusedVariables false

/-- Rust `Artist { name: String }`. -/
structure Artist where
  name : String
deriving DecidableEq

/-- Rust `Album { name: String }`. -/
structure Album where
  name : String
deriving DecidableEq

/-- Rust `Track { name, id, artists, album }`. -/
structure Track where
  name : String
  id : String
  artists : List Artist
  album : Album
deriving DecidableEq

/-- Rust slice `join(sep)` on a vector of strings:
`[].join = ""`, `[x].join = x`, `(x :: xs).join = x ++ sep ++ xs.join`. -/
def joinSep (sep : String) : List String → String
  | [] => ""
  | [x] => x
  | x :: y :: rest => x ++ sep ++ joinSep sep (y :: rest)

/-- Rust slice `split_last()`: `none` on the empty slice, otherwise
`some (last, init)`. -/
def splitLast : List α → Option (α × List α)
  | [] => none
  | [a] => some (a, [])
  | a :: b :: rest =>
    match splitLast (b :: rest) with
    | some (l, init) => some (l, a :: init)
    | none => none

/-- The artist phrase computed by `impl Display for Track` (main.rs:160-176):
`split_last().unwrap()` (so `none` = panic on an empty artist list), join the
initial names with `", "`, and branch on whether that *joined string* is
empty. -/
def artistPhrase (names : List String) : Option String :=
  match splitLast names with
  | none => none
  | some (last, start) =>
    let artists := joinSep ", " start
    some (if artists = "" then last else artists ++ " and " ++ last)

/-- The full `Display` output for a `Track` (main.rs:174):
`"{name} by {artist} on {album}"`; `none` models the `unwrap` panic. -/
def trackDisplay (t : Track) : Option String :=
  (artistPhrase (t.artists.map Artist.name)).map
    (fun artist => t.name ++ " by " ++ artist ++ " on " ++ t.album.name)

/-- The D-Bus value shapes distinguished by the conversion code in
`Into<Metadata> for OwnedValue` (main.rs:58-86). -/
inductive OwnedValue where
  | str (s : String)
  | strs (l : List String)
  | dict (entries : List (String × OwnedValue))
  | other

/-- Rust `Metadata { title, artists, album, artwork }`. -/
structure Metadata where
  title : String
  artists : List String
  album : String
  artwork : String
deriving DecidableEq

/-- `value.downcast::<String>()`: succeeds exactly on string-shaped values. -/
def downcastString : OwnedValue → Option String
  | .str s => some s
  | _ => none

/-- `value.downcast::<Vec<String>>()`: succeeds exactly on string-list values. -/
def downcastStrings : OwnedValue → Option (List String)
  | .strs l => some l
  | _ => none

/-- `HashMap::get` on the property map, modelled on an association list. -/
def mapGet (m : List (String × OwnedValue)) (k : String) : Option OwnedValue :=
  (m.find? (fun e => e.1 == k)).map (fun e => e.2)

/-- `Into<Metadata> for OwnedValue` (main.rs:58-86): if the value is a dict it
becomes the map, otherwise the map stays empty; then each of the four fields
is read with `.get(key).cloned().unwrap().downcast().unwrap()`.  Every
`unwrap` failure is modelled by `none`. -/
def intoMetadata (v : OwnedValue) : Option Metadata :=
  let map := match v with
    | .dict entries => entries
    | _ => []
  ((mapGet map "xesam:title").bind downcastString).bind fun title =>
  ((mapGet map "xesam:artist").bind downcastStrings).bind fun artists =>
  ((mapGet map "xesam:album").bind downcastString).bind fun album =>
  ((mapGet map "mpris:artUrl").bind downcastString).bind fun artwork =>
  some { title := title, artists := artists, album := album, artwork := artwork }

/-- Rust `str::trim`: the input without leading and trailing whitespace. -/
def trimChars (s : List Char) : List Char :=
  ((s.dropWhile Char.isWhitespace).reverse.dropWhile Char.isWhitespace).reverse

/-- Rust `input.trim().parse::<usize>()`: succeeds exactly on a non-empty
all-digit trimmed input, giving its decimal value (the model uses an
unbounded `Nat` for `usize`). -/
def parseUsize (input : String) : Option Nat :=
  let t := trimChars input.data
  if t.isEmpty then none
  else if t.all Char.isDigit then
    some (t.foldl (fun n c => 10 * n + (c.toNat - 48)) 0)
  else none

/-- Rust `PlayMode`: `Uri { uri }` or `Search { query, list, count }`. -/
inductive PlayMode where
  | uri (u : String)
  | search (query : List String) (list : Bool) (count : Nat)
deriving DecidableEq

/-- The externally visible final action of one `play_song` run. -/
inductive Outcome where
  | openUri (u : String)
  | noTrack (msg : String)
  | panicked
deriving DecidableEq

/-- What one `play_song` run did: which queries were sent to the search
collaborator, whether the interactive prompt/stdin read happened, and the
final action. -/
structure RunLog where
  queries : List String
  prompted : Bool
  outcome : Outcome
deriving DecidableEq

/-- The candidates presented by the interactive loop (main.rs:226):
`track.iter().take(count).enumerate()` — the first `count` results in their
original order, numbered from 0. -/
def presented (tracks : List Track) (count : Nat) : List (Nat × Track) :=
  (tracks.take count).enum

/-- `play_song` (main.rs:219-247).  `doSearch` is the search collaborator
(`search(&query)`), `stdin` the line the interactive prompt would read.
The display loop panics (before the prompt) if any shown track has an
unprintable `Display`; the trimmed input is parsed as a `usize` (panic on
failure); the parsed index is looked up in the FULL result list
(`track.get(input).unwrap()`, panic when out of range); `"Playing {}"` is
printed (panic if the chosen track is unprintable) and then
`open_uri("spotify:track:{id}")` is called. -/
def playSong (mode : PlayMode) (doSearch : String → List Track) (stdin : String) : RunLog :=
  match mode with
  | .uri u => { queries := [], prompted := false, outcome := .openUri u }
  | .search query list count =>
    let q := joinSep " " query
    let tracks := doSearch q
    if list then
      if (tracks.take count).all (fun u => (trackDisplay u).isSome) then
        match parseUsize stdin with
        | none => { queries := [q], prompted := true, outcome := .panicked }
        | some i =>
          match tracks[i]? with
          | none => { queries := [q], prompted := true, outcome := .panicked }
          | some t =>
            if (trackDisplay t).isSome then
              { queries := [q], prompted := true
                outcome := .openUri ("spotify:track:" ++ t.id) }
            else { queries := [q], prompted := true, outcome := .panicked }
      else { queries := [q], prompted := false, outcome := .panicked }
    else
      match tracks.head? with
      | some t =>
        if (trackDisplay t).isSome then
          { queries := [q], prompted := false
            outcome := .openUri ("spotify:track:" ++ t.id) }
        else { queries := [q], prompted := false, outcome := .panicked }
      | none =>
        { queries := [q], prompted := false
          outcome := .noTrack ("No track found for " ++ q) }

/-- Modelled from the spec (section 4.2): the artist phrase as the spec words
it — join all names except the last with `", "`; if there is more than one
artist, join that prefix with the last using `" and "`; if exactly one, the
name alone.  Used only to compare the spec formula with the code. -/
def specArtistPhrase (names : List String) : String :=
  if names.length = 1 then names.headD ""
  else joinSep ", " names.dropLast ++ " and " ++ names.getLastD ""

/-- Modelled from the spec (section 4.2): the full format string
`"<name> by <artist-phrase> on <album>"` with the spec's artist phrase. -/
def specFormat (t : Track) : String :=
  t.name ++ " by " ++ specArtistPhrase (t.artists.map Artist.name) ++ " on " ++ t.album.name

/-- `pat` occurs at the head of `s` (boolean prefix test on char lists). -/
def isPrefixList : List Char → List Char → Bool
  | [], _ => true
  | _ :: _, [] => false
  | a :: as, b :: bs => a == b && isPrefixList as bs

/-- `pat` occurs at the end of `s`. -/
def isSuffixList (pat s : List Char) : Bool :=
  isPrefixList pat.reverse s.reverse

/-- Number of positions of `s` at which `pat` occurs. -/
def countSub (pat : List Char) : List Char → Nat
  | [] => if isPrefixList pat [] then 1 else 0
  | c :: rest => (if isPrefixList pat (c :: rest) then 1 else 0) + countSub pat rest

/-- A concrete track used by witnesses and counterexamples. -/
def sampleTrack (n : Nat) : Track :=
  { name := "T" ++ toString n, id := "id" ++ toString n
    artists := [{ name := "A" ++ toString n }], album := { name := "Al" ++ toString n } }

/-- A concrete track list of length `n`. -/
def sampleTracks (n : Nat) : List Track :=
  (List.range n).map sampleTrack

/-! ### Helper lemmas -/

theorem splitLast_eq (d : α) : ∀ (l : List α), l ≠ [] →
    splitLast l = some (l.getLastD d, l.dropLast)
  | [], h => absurd rfl h
  | [a], _ => rfl
  | a :: b :: rest, _ => by
    have ih := splitLast_eq d (b :: rest) (by simp)
    simp only [splitLast, ih, List.getLastD_cons, List.dropLast_cons₂]

theorem artistPhrase_eq (names : List String) (h : names ≠ []) :
    artistPhrase names =
      some (if joinSep ", " names.dropLast = "" then names.getLastD ""
            else joinSep ", " names.dropLast ++ " and " ++ names.getLastD "") := by
  rw [artistPhrase, splitLast_eq "" names h]

theorem artistPhrase_isSome (names : List String) (h : names ≠ []) :
    (artistPhrase names).isSome := by
  rw [artistPhrase_eq names h]; rfl

theorem trackDisplay_isSome (t : Track) (h : t.artists ≠ []) :
    (trackDisplay t).isSome := by
  rw [trackDisplay, Option.isSome_map']
  exact artistPhrase_isSome _ (by simpa using h)

theorem string_ne_empty_iff (s : String) : s ≠ "" ↔ s.data ≠ [] := by
  constructor
  · intro h hd
    exact h (String.ext hd)
  · intro h hs
    subst hs
    exact h rfl

theorem joinSep_ne_empty (sep : String) : ∀ (l : List String),
    l ≠ [] → (∀ n ∈ l, n ≠ "") → joinSep sep l ≠ ""
  | [], h, _ => absurd rfl h
  | [x], _, hall => by simpa [joinSep] using hall x (by simp)
  | x :: y :: rest, _, hall => by
    have hx : x ≠ "" := hall x (by simp)
    rw [string_ne_empty_iff] at hx ⊢
    simp [joinSep, hx]

/-- The character list of the separator `" and "`. -/
def sepAnd : List Char := [' ', 'a', 'n', 'd', ' ']

theorem sepAnd_eq_data : (" and " : String).data = sepAnd := by decide

theorem isPrefixList_cons_ne {a b : Char} (p s : List Char) (h : a ≠ b) :
    isPrefixList (a :: p) (b :: s) = false := by
  simp [isPrefixList, h]

theorem isPrefixList_self_append (p r : List Char) : isPrefixList p (p ++ r) = true := by
  induction p with
  | nil => rfl
  | cons a as ih => simp [isPrefixList, ih]

theorem mem_of_isPrefixList {p s : List Char} (h : isPrefixList p s = true) :
    ∀ c ∈ p, c ∈ s := by
  induction p generalizing s with
  | nil => simp
  | cons a as ih =>
    cases s with
    | nil => simp [isPrefixList] at h
    | cons b bs =>
      simp only [isPrefixList, Bool.and_eq_true, beq_iff_eq] at h
      intro c hc
      rcases List.mem_cons.mp hc with h1 | h2
      · subst h1
        rw [h.1]
        exact List.mem_cons_self b bs
      · exact List.mem_cons_of_mem b (ih h.2 c h2)

theorem countSub_cons_ne {x c : Char} (p rest : List Char) (h : x ≠ c) :
    countSub (x :: p) (c :: rest) = countSub (x :: p) rest := by
  simp [countSub, isPrefixList_cons_ne _ _ h]

theorem countSub_skip {x : Char} (p : List Char) : ∀ (cs rest : List Char),
    (∀ c ∈ cs, c ≠ x) → countSub (x :: p) (cs ++ rest) = countSub (x :: p) rest
  | [], rest, _ => rfl
  | c :: cs, rest, h => by
    rw [List.cons_append,
      countSub_cons_ne p _ (fun he => (h c (List.mem_cons_self c cs)) he.symm),
      countSub_skip p cs rest (fun d hd => h d (List.mem_cons_of_mem c hd))]

theorem countSub_eq_zero {x : Char} (p cs : List Char) (h : ∀ c ∈ cs, c ≠ x) :
    countSub (x :: p) cs = 0 := by
  have h0 := countSub_skip p cs [] h
  rw [List.append_nil] at h0
  rw [h0]
  simp [countSub, isPrefixList]

theorem countSub_cons_self {x : Char} (p rest : List Char) :
    countSub (x :: p) (x :: rest) =
      (if isPrefixList p rest then 1 else 0) + countSub (x :: p) rest := by
  simp [countSub, isPrefixList]

theorem and4_not_prefix (m S : List Char)
    (hm : m ≠ []) (hsp : ∀ c ∈ m, c ≠ ' ')
    (hand : m ≠ ['a', 'n', 'd'])
    (hS : S = [] ∨ (∃ S2, S = ',' :: S2) ∨ (∃ S2, S = ' ' :: S2)) :
    isPrefixList ['a', 'n', 'd', ' '] (m ++ S) = false := by
  by_contra hpre
  rw [Bool.not_eq_false] at hpre
  match m, hm with
  | c1 :: m1, _ =>
    rw [List.cons_append] at hpre
    simp only [isPrefixList, Bool.and_eq_true, beq_iff_eq] at hpre
    obtain ⟨hc1, hpre⟩ := hpre
    match m1 with
    | [] =>
      rcases hS with rfl | ⟨S2, rfl⟩ | ⟨S2, rfl⟩ <;>
        simp only [List.nil_append, isPrefixList, Bool.and_eq_true, beq_iff_eq] at hpre
      · exact absurd hpre (by decide)
      · exact absurd hpre.1 (by decide)
      · exact absurd hpre.1 (by decide)
    | c2 :: m2 =>
      rw [List.cons_append] at hpre
      simp only [isPrefixList, Bool.and_eq_true, beq_iff_eq] at hpre
      obtain ⟨hc2, hpre⟩ := hpre
      match m2 with
      | [] =>
        rcases hS with rfl | ⟨S2, rfl⟩ | ⟨S2, rfl⟩ <;>
          simp only [List.nil_append, isPrefixList, Bool.and_eq_true, beq_iff_eq] at hpre
        · exact absurd hpre (by decide)
        · exact absurd hpre.1 (by decide)
        · exact absurd hpre.1 (by decide)
      | c3 :: m3 =>
        rw [List.cons_append] at hpre
        simp only [isPrefixList, Bool.and_eq_true, beq_iff_eq] at hpre
        obtain ⟨hc3, hpre⟩ := hpre
        match m3 with
        | [] =>
          subst hc1; subst hc2; subst hc3
          exact hand rfl
        | c4 :: m4 =>
          rw [List.cons_append] at hpre
          simp only [isPrefixList, Bool.and_eq_true, beq_iff_eq] at hpre
          exact hsp c4 (by simp) hpre.1.symm

theorem getLastD_mem : ∀ (l : List α) (d : α), l ≠ [] → l.getLastD d ∈ l
  | [a], _, _ => by simp
  | a :: b :: t, d, _ => by
    rw [List.getLastD_cons]
    exact List.mem_cons_of_mem a (getLastD_mem (b :: t) a (by simp))

theorem joinSep_data_cons (sep x : String) (l : List String) :
    ∃ r, (joinSep sep (x :: l)).data = x.data ++ r := by
  cases l with
  | nil => exact ⟨[], by simp [joinSep]⟩
  | cons y t =>
    refine ⟨sep.data ++ (joinSep sep (y :: t)).data, ?_⟩
    show ((x ++ sep) ++ joinSep sep (y :: t)).data = _
    simp

theorem countSub_sep (L : List Char) (hL : ∀ c ∈ L, c ≠ ' ') :
    countSub sepAnd (sepAnd ++ L) = 1 := by
  show countSub (' ' :: ['a', 'n', 'd', ' ']) (' ' :: (['a', 'n', 'd', ' '] ++ L)) = 1
  rw [countSub_cons_self, isPrefixList_self_append]
  have h2 : ['a', 'n', 'd', ' '] ++ L = ['a', 'n', 'd'] ++ (' ' :: L) := rfl
  rw [h2, countSub_skip _ ['a', 'n', 'd'] (' ' :: L) (by decide), countSub_cons_self]
  have h3 : isPrefixList ['a', 'n', 'd', ' '] L = false := by
    by_contra hp
    rw [Bool.not_eq_false] at hp
    exact hL ' ' (mem_of_isPrefixList hp ' ' (by decide)) rfl
  rw [h3, countSub_eq_zero _ L hL]
  simp

theorem countSub_sepAnd_skip (cs rest : List Char) (h : ∀ c ∈ cs, c ≠ ' ') :
    countSub sepAnd (cs ++ rest) = countSub sepAnd rest :=
  countSub_skip _ cs rest h

theorem countSub_sepAnd_comma (rest : List Char) :
    countSub sepAnd (',' :: rest) = countSub sepAnd rest :=
  countSub_cons_ne _ _ (by decide)

theorem countSub_sepAnd_space (rest : List Char) :
    countSub sepAnd (' ' :: rest) =
      (if isPrefixList ['a', 'n', 'd', ' '] rest then 1 else 0) + countSub sepAnd rest :=
  countSub_cons_self _ _

theorem countSub_join : ∀ (ns : List String) (Ld : List Char),
    ns ≠ [] →
    (∀ n ∈ ns, n ≠ "" ∧ n ≠ "and" ∧ ∀ c ∈ n.data, c ≠ ' ' ∧ c ≠ ',') →
    (∀ c ∈ Ld, c ≠ ' ') →
    countSub sepAnd ((joinSep ", " ns).data ++ (sepAnd ++ Ld)) = 1
  | [], _, h, _, _ => absurd rfl h
  | [n], Ld, _, hgood, hL => by
    have hn := hgood n (by simp)
    have hjd : (joinSep ", " [n]).data = n.data := rfl
    rw [hjd, countSub_sepAnd_skip n.data _ (fun c hc => (hn.2.2 c hc).1)]
    exact countSub_sep Ld hL
  | n :: m :: r, Ld, _, hgood, hL => by
    have hn := hgood n (by simp)
    have hm := hgood m (by simp)
    have ih := countSub_join (m :: r) Ld (by simp)
      (fun x hx => hgood x (List.mem_cons_of_mem n hx)) hL
    have hsep : (", " : String).data = [',', ' '] := by decide
    have hjd : (joinSep ", " (n :: m :: r)).data
        = n.data ++ (',' :: ' ' :: (joinSep ", " (m :: r)).data) := by
      show ((n ++ ", ") ++ joinSep ", " (m :: r)).data = _
      rw [String.data_append, String.data_append, hsep]
      simp
    rw [hjd, List.append_assoc, List.cons_append, List.cons_append,
      countSub_sepAnd_skip n.data _ (fun c hc => (hn.2.2 c hc).1),
      countSub_sepAnd_comma, countSub_sepAnd_space, ih]
    have hmne : m.data ≠ [] := (string_ne_empty_iff m).mp hm.1
    have hmand : m.data ≠ ['a', 'n', 'd'] := by
      intro hd
      exact hm.2.1 (String.ext (hd.trans (by decide)))
    have hpre : isPrefixList ['a', 'n', 'd', ' ']
        ((joinSep ", " (m :: r)).data ++ (sepAnd ++ Ld)) = false := by
      cases r with
      | nil =>
        have hj : (joinSep ", " [m]).data = m.data := rfl
        rw [hj]
        exact and4_not_prefix m.data (sepAnd ++ Ld) hmne
          (fun c hc => (hm.2.2 c hc).1) hmand
          (Or.inr (Or.inr ⟨['a', 'n', 'd', ' '] ++ Ld, rfl⟩))
      | cons r0 r2 =>
        have hjd2 : (joinSep ", " (m :: r0 :: r2)).data
            = m.data ++ (',' :: ' ' :: (joinSep ", " (r0 :: r2)).data) := by
          show ((m ++ ", ") ++ joinSep ", " (r0 :: r2)).data = _
          rw [String.data_append, String.data_append, hsep]
          simp
        rw [hjd2, List.append_assoc]
        exact and4_not_prefix m.data _ hmne
          (fun c hc => (hm.2.2 c hc).1) hmand
          (Or.inr (Or.inl ⟨' ' :: ((joinSep ", " (r0 :: r2)).data ++ (sepAnd ++ Ld)), by simp⟩))
    rw [hpre]
    simp

theorem data_cons_of_ne_empty {s : String} (h : s ≠ "") : ∃ c cs, s.data = c :: cs := by
  cases hd : s.data with
  | nil => exact absurd hd ((string_ne_empty_iff s).mp h)
  | cons c cs => exact ⟨c, cs, rfl⟩

theorem data_reverse_cons_of_ne_empty {s : String} (h : s ≠ "") :
    ∃ e es, s.data.reverse = e :: es ∧ e ∈ s.data := by
  cases hr : s.data.reverse with
  | nil =>
    exact absurd (List.reverse_eq_nil_iff.mp hr) ((string_ne_empty_iff s).mp h)
  | cons e es =>
    refine ⟨e, es, rfl, ?_⟩
    have he : e ∈ s.data.reverse := by
      rw [hr]
      exact List.mem_cons_self e es
    exact List.mem_reverse.mp he

theorem dropLast_eq_nil_of_join_empty (names : List String)
    (hgood : ∀ n ∈ names, n ≠ "")
    (hj : joinSep ", " names.dropLast = "") : names.dropLast = [] := by
  cases hd : names.dropLast with
  | nil => rfl
  | cons x t =>
    have hne : joinSep ", " (x :: t) ≠ "" := by
      apply joinSep_ne_empty ", " (x :: t) (by simp)
      intro n hn
      exact hgood n (List.mem_of_mem_dropLast (hd ▸ hn))
    exact absurd (hd ▸ hj) hne

/-- Claim C7 (amended): for a non-empty sequence of artist names in which
every name is non-empty, contains neither a space nor a comma, and is not the
word "and", the phrase built by the `Display` code has no leading or trailing
`", "` or `" and "` separator, and `" and "` occurs exactly once as soon as
there are at least two artists. -/
theorem claim_c7_holds (names : List String)
    (hne : names ≠ [])
    (hgood : ∀ n ∈ names, n ≠ "" ∧ n ≠ "and" ∧ ∀ c ∈ n.data, c ≠ ' ' ∧ c ≠ ',') :
    ∃ p, artistPhrase names = some p ∧
      isPrefixList (", " : String).data p.data = false ∧
      isPrefixList (" and " : String).data p.data = false ∧
      isSuffixList (", " : String).data p.data = false ∧
      isSuffixList (" and " : String).data p.data = false ∧
      (2 ≤ names.length → countSub (" and " : String).data p.data = 1) := by
  have hcomma : (", " : String).data = [',', ' '] := by decide
  have hcommarev : (", " : String).data.reverse = [' ', ','] := by decide
  have handrev : (" and " : String).data.reverse = [' ', 'd', 'n', 'a', ' '] := by decide
  have hL := hgood (names.getLastD "") (getLastD_mem names "" hne)
  obtain ⟨c0, cs0, hLdata⟩ := data_cons_of_ne_empty hL.1
  obtain ⟨e, es, hLrev, heL⟩ := data_reverse_cons_of_ne_empty hL.1
  have hc0 := hL.2.2 c0 (by rw [hLdata]; exact List.mem_cons_self c0 cs0)
  have he := hL.2.2 e heL
  rw [artistPhrase_eq names hne]
  by_cases hj : joinSep ", " names.dropLast = ""
  · have hdnil : names.dropLast = [] :=
      dropLast_eq_nil_of_join_empty names (fun n hn => (hgood n hn).1) hj
    refine ⟨names.getLastD "", by rw [if_pos hj], ?_, ?_, ?_, ?_, ?_⟩
    · rw [hcomma, hLdata]
      exact isPrefixList_cons_ne _ _ (fun hcc => hc0.2 hcc.symm)
    · rw [sepAnd_eq_data, hLdata]
      exact isPrefixList_cons_ne _ _ (fun hcc => hc0.1 hcc.symm)
    · rw [isSuffixList, hcommarev, hLrev]
      exact isPrefixList_cons_ne _ _ (fun hcc => he.1 hcc.symm)
    · rw [isSuffixList, handrev, hLrev]
      exact isPrefixList_cons_ne _ _ (fun hcc => he.1 hcc.symm)
    · intro h2
      have hlen : names.dropLast.length = names.length - 1 := List.length_dropLast names
      rw [hdnil] at hlen
      exact absurd h2 (by simp at hlen; omega)
  · rw [if_neg hj]
    have hdne : names.dropLast ≠ [] := by
      intro hd
      exact hj (by rw [hd]; rfl)
    obtain ⟨n0, rest0, hd0⟩ : ∃ n0 rest0, names.dropLast = n0 :: rest0 := by
      cases hd : names.dropLast with
      | nil => exact absurd hd hdne
      | cons n0 rest0 => exact ⟨n0, rest0, rfl⟩
    have hn0 := hgood n0 (List.mem_of_mem_dropLast (by rw [hd0]; exact List.mem_cons_self n0 rest0))
    obtain ⟨c1, cs1, hn0data⟩ := data_cons_of_ne_empty hn0.1
    have hc1 := hn0.2.2 c1 (by rw [hn0data]; exact List.mem_cons_self c1 cs1)
    obtain ⟨jr, hjr⟩ := joinSep_data_cons ", " n0 rest0
    have hpdata : (joinSep ", " names.dropLast ++ " and " ++ names.getLastD "").data
        = (joinSep ", " names.dropLast).data ++ (sepAnd ++ (names.getLastD "").data) := by
      show ((joinSep ", " names.dropLast ++ " and ") ++ names.getLastD "").data = _
      rw [String.data_append, String.data_append, sepAnd_eq_data, List.append_assoc]
    refine ⟨_, rfl, ?_, ?_, ?_, ?_, fun _ => ?_⟩
    · rw [hcomma, hpdata, hd0, hjr, hn0data, List.cons_append, List.cons_append]
      exact isPrefixList_cons_ne _ _ (fun hcc => hc1.2 hcc.symm)
    · rw [sepAnd_eq_data, hpdata, hd0, hjr, hn0data, List.cons_append, List.cons_append]
      exact isPrefixList_cons_ne _ _ (fun hcc => hc1.1 hcc.symm)
    · rw [isSuffixList, hcommarev, hpdata, List.reverse_append, List.reverse_append,
        hLrev, List.cons_append, List.cons_append]
      exact isPrefixList_cons_ne _ _ (fun hcc => he.1 hcc.symm)
    · rw [isSuffixList, handrev, hpdata, List.reverse_append, List.reverse_append,
        hLrev, List.cons_append, List.cons_append]
      exact isPrefixList_cons_ne _ _ (fun hcc => he.1 hcc.symm)
    · rw [sepAnd_eq_data, hpdata]
      exact countSub_join names.dropLast (names.getLastD "").data hdne
        (fun n hn => hgood n (List.mem_of_mem_dropLast hn))
        (fun c hc => (hL.2.2 c hc).1)

/-- Claim C7 counterexample: with artists `["A", ""]` (a non-empty artist-name
sequence) the code produces the phrase `"A and "`, which ends in the separator
`" and "` — refuting "never emits a leading/trailing separator". -/
theorem claim_c7_counterexample :
    artistPhrase ["A", ""] = some "A and " ∧
    isSuffixList (" and " : String).data ("A and " : String).data = true :=
  ⟨by decide, by decide⟩

/-- Witness for C7: concrete instance `["A", "B", "C"]`. -/
theorem claim_c7_witness :
    ∃ p, artistPhrase ["A", "B", "C"] = some p ∧
      isPrefixList (", " : String).data p.data = false ∧
      isPrefixList (" and " : String).data p.data = false ∧
      isSuffixList (", " : String).data p.data = false ∧
      isSuffixList (" and " : String).data p.data = false ∧
      (2 ≤ (["A", "B", "C"] : List String).length →
        countSub (" and " : String).data p.data = 1) :=
  claim_c7_holds ["A", "B", "C"] (by decide) (by decide)

/-- Claim C2 (amended): for every track with a non-empty artist list,
`Display` succeeds (never panics) and returns
`"<name> by <phrase> on <album>"`, where the phrase is the last artist name
alone whenever the `", "`-join of the preceding names is the EMPTY STRING
(in particular for a single artist), and otherwise that join followed by
`" and "` and the last name.  (The code branches on emptiness of the joined
prefix string, not on the artist count.) -/
theorem claim_c2_holds (t : Track) (h : t.artists ≠ []) :
    trackDisplay t = some (t.name ++ " by "
      ++ (if joinSep ", " (t.artists.map Artist.name).dropLast = ""
          then (t.artists.map Artist.name).getLastD ""
          else joinSep ", " (t.artists.map Artist.name).dropLast ++ " and "
            ++ (t.artists.map Artist.name).getLastD "")
      ++ " on " ++ t.album.name) := by
  rw [trackDisplay, artistPhrase_eq _ (by simpa using h)]
  rfl

/-- Claim C2 counterexample: the track `"N"` with artists `["", "B"]` (two
artists, so non-empty) formats as `"N by B on Al"`, while the spec's
artist-phrase rule (join-prefix + " and " + last for more than one artist)
predicts `"N by  and B on Al"`. -/
theorem claim_c2_counterexample :
    trackDisplay ⟨"N", "i", [⟨""⟩, ⟨"B"⟩], ⟨"Al"⟩⟩ = some "N by B on Al"
    ∧ specFormat ⟨"N", "i", [⟨""⟩, ⟨"B"⟩], ⟨"Al"⟩⟩ = "N by  and B on Al"
    ∧ ("N by B on Al" : String) ≠ "N by  and B on Al" :=
  ⟨by decide, by decide, by decide⟩

/-- Witness for C2: a single-artist track formats as stated. -/
theorem claim_c2_witness :
    trackDisplay ⟨"Song", "x", [⟨"Max"⟩], ⟨"X"⟩⟩ = some "Song by Max on X" :=
  (claim_c2_holds ⟨"Song", "x", [⟨"Max"⟩], ⟨"X"⟩⟩ (by decide)).trans (by decide)

/-- Claim C1 (amended): metadata extraction substitutes no defaults and is
not total — it succeeds exactly when all four keys (`xesam:title`,
`xesam:artist`, `xesam:album`, `mpris:artUrl`) are present with values of the
expected shapes, and then each present well-shaped value is passed through
unchanged; any absent or ill-shaped key makes the conversion panic. -/
theorem claim_c1_holds (m : List (String × OwnedValue)) :
    ((intoMetadata (.dict m)).isSome ↔
      ((mapGet m "xesam:title").bind downcastString).isSome
      ∧ ((mapGet m "xesam:artist").bind downcastStrings).isSome
      ∧ ((mapGet m "xesam:album").bind downcastString).isSome
      ∧ ((mapGet m "mpris:artUrl").bind downcastString).isSome)
    ∧ (∀ title artists album artwork,
        (mapGet m "xesam:title").bind downcastString = some title →
        (mapGet m "xesam:artist").bind downcastStrings = some artists →
        (mapGet m "xesam:album").bind downcastString = some album →
        (mapGet m "mpris:artUrl").bind downcastString = some artwork →
        intoMetadata (.dict m)
          = some { title := title, artists := artists, album := album, artwork := artwork }) := by
  constructor
  · cases h1 : (mapGet m "xesam:title").bind downcastString <;>
    cases h2 : (mapGet m "xesam:artist").bind downcastStrings <;>
    cases h3 : (mapGet m "xesam:album").bind downcastString <;>
    cases h4 : (mapGet m "mpris:artUrl").bind downcastString <;>
      simp [intoMetadata, h1, h2, h3, h4]
  · intro title artists album artwork h1 h2 h3 h4
    simp [intoMetadata, h1, h2, h3, h4]

/-- Claim C1 counterexample: the empty property map (and a map carrying only a
title) make the conversion panic (`none`), refuting "total, never fails,
defaults substituted" — the claim predicts
`{ title := "Unknown", artists := ["Unknown"], ... }` here. -/
theorem claim_c1_counterexample :
    intoMetadata (.dict []) = none ∧
    intoMetadata (.dict [("xesam:title", OwnedValue.str "T")]) = none :=
  ⟨by decide, by decide⟩

/-- Witness for C1: a fully-populated well-shaped map converts with all four
values passed through unchanged. -/
theorem claim_c1_witness :
    intoMetadata (.dict [("xesam:title", OwnedValue.str "T"),
      ("xesam:artist", OwnedValue.strs ["A"]), ("xesam:album", OwnedValue.str "B"),
      ("mpris:artUrl", OwnedValue.str "U")])
      = some { title := "T", artists := ["A"], album := "B", artwork := "U" } :=
  (claim_c1_holds _).2 "T" ["A"] "B" "U" (by decide) (by decide) (by decide) (by decide)

theorem take_all_displayable (tracks : List Track) (count : Nat)
    (hdisp : ∀ u ∈ tracks.take count, u.artists ≠ []) :
    (tracks.take count).all (fun u => (trackDisplay u).isSome) = true := by
  rw [List.all_eq_true]
  intro u hu
  exact trackDisplay_isSome u (hdisp u hu)

/-- Claim C3: in interactive (list) mode with a non-empty result, exactly
`min count n` candidates are presented, in the result's original order,
numbered from 0; and an in-range index `i < min count n` selects candidate
`i` and resolves to `"spotify:track:" ++ candidates[i].id`.  (The tracks
shown must be displayable, i.e. have non-empty artist lists — the spec's
standing precondition for formatting.) -/
theorem claim_c3_holds (tracks : List Track) (query : List String) (count i : Nat)
    (t : Track) (stdin : String)
    (hdisp : ∀ u ∈ tracks.take count, u.artists ≠ [])
    (hi : i < min count tracks.length)
    (ht : tracks[i]? = some t)
    (hparse : parseUsize stdin = some i) :
    (presented tracks count).length = min count tracks.length
    ∧ (∀ j, j < min count tracks.length →
        ∃ u, tracks[j]? = some u ∧ (presented tracks count)[j]? = some (j, u))
    ∧ (playSong (.search query true count) (fun _ => tracks) stdin).outcome
        = .openUri ("spotify:track:" ++ t.id) := by
  have hall := take_all_displayable tracks count hdisp
  have hc : i < count := lt_of_lt_of_le hi (Nat.min_le_left _ _)
  have htt : t ∈ tracks.take count := by
    have h2 : (tracks.take count)[i]? = some t := by
      rw [List.getElem?_take_of_lt hc]
      exact ht
    exact List.getElem?_mem h2
  have htd : (trackDisplay t).isSome = true := trackDisplay_isSome t (hdisp t htt)
  refine ⟨?_, ?_, ?_⟩
  · simp [presented, List.enum_eq_enumFrom]
  · intro j hj
    have hjc : j < count := lt_of_lt_of_le hj (Nat.min_le_left _ _)
    have hjl : j < tracks.length := lt_of_lt_of_le hj (Nat.min_le_right _ _)
    cases hu : tracks[j]? with
    | none =>
      rw [List.getElem?_eq_none_iff] at hu
      omega
    | some u =>
      refine ⟨u, rfl, ?_⟩
      rw [presented, List.enum_eq_enumFrom, List.getElem?_enumFrom,
        List.getElem?_take_of_lt hjc, hu]
      simp
  · simp [playSong, hall, hparse, ht, htd]

/-- Witness for C3: five results, three shown, index 2 selected. -/
theorem claim_c3_witness :
    (presented (sampleTracks 5) 3).length = min 3 (sampleTracks 5).length
    ∧ (∀ j, j < min 3 (sampleTracks 5).length →
        ∃ u, (sampleTracks 5)[j]? = some u ∧ (presented (sampleTracks 5) 3)[j]? = some (j, u))
    ∧ (playSong (.search ["q"] true 3) (fun _ => sampleTracks 5) "2").outcome
        = .openUri ("spotify:track:" ++ (sampleTrack 2).id) :=
  claim_c3_holds (sampleTracks 5) ["q"] 3 2 (sampleTrack 2) "2"
    (by decide) (by decide) (by decide) (by decide)

/-- Claim C4 (amended): the empty-result check lives only on the `First`
(non-list) branch, which yields the `NoTrackFound` message; in interactive
mode the `list` branch is taken first, so an empty search result still
prompts and reads input, then panics at the index lookup for every input. -/
theorem claim_c4_holds (query : List String) (count : Nat) (stdin : String) :
    (playSong (.search query false count) (fun _ => []) stdin).outcome
      = .noTrack ("No track found for " ++ joinSep " " query)
    ∧ (playSong (.search query true count) (fun _ => []) stdin).outcome = .panicked
    ∧ (playSong (.search query true count) (fun _ => []) stdin).prompted = true := by
  refine ⟨rfl, ?_, ?_⟩ <;>
    cases hp : parseUsize stdin <;> simp [playSong, hp]

/-- Claim C4 counterexample: interactive mode with an empty search result
prompts (reads stdin) and panics, instead of yielding `NoTrackFound` without
prompting. -/
theorem claim_c4_counterexample :
    playSong (.search ["a"] true 5) (fun _ => []) "0"
      = ⟨["a"], true, .panicked⟩ := by decide

/-- Claim C5: in `First` mode an empty search result produces the message
`"No track found for <query>"` as a normal (non-panicking) outcome — `main`
then returns and the process exits with code zero. -/
theorem claim_c5_holds (query : List String) (count : Nat) (stdin : String) :
    playSong (.search query false count) (fun _ => []) stdin
      = ⟨[joinSep " " query], false,
          .noTrack ("No track found for " ++ joinSep " " query)⟩ := rfl

/-- Claim C6 (amended): in interactive mode, non-numeric input and any index
`≥` the TOTAL number of search results is a fatal panic (no retry loop, no
re-prompt — the run ends); indices between the displayed count and the total
are accepted (see C10). -/
theorem claim_c6_holds (tracks : List Track) (query : List String) (count : Nat)
    (stdin : String)
    (h : parseUsize stdin = none ∨ ∃ i, parseUsize stdin = some i ∧ tracks.length ≤ i) :
    (playSong (.search query true count) (fun _ => tracks) stdin).outcome = .panicked := by
  by_cases hall : (tracks.take count).all (fun u => (trackDisplay u).isSome) = true
  · rcases h with hp | ⟨i, hp, hge⟩
    · simp [playSong, hall, hp]
    · have hnone : tracks[i]? = none := List.getElem?_eq_none hge
      simp [playSong, hall, hp, hnone]
  · have hf : (tracks.take count).all (fun u => (trackDisplay u).isSome) = false :=
      Bool.eq_false_iff.mpr hall
    simp [playSong, hf]

/-- Claim C6 counterexample: with five results and three presented, index `3`
is NOT among the presented candidates, yet it is accepted and plays the
fourth track — no `SelectionInputError`. -/
theorem claim_c6_counterexample :
    playSong (.search ["q"] true 3) (fun _ => sampleTracks 5) "3"
      = ⟨["q"], true, .openUri "spotify:track:id3"⟩ := by decide

/-- Witness for C6: non-numeric input panics. -/
theorem claim_c6_witness :
    (playSong (.search ["q"] true 5) (fun _ => []) "x").outcome = .panicked :=
  claim_c6_holds [] ["q"] 5 "x" (Or.inl (by decide))

/-- Claim C8: `First` mode with a non-empty result chooses the first element
and resolves to exactly `"spotify:track:" ++ first.id` (with the first
track displayable, the spec's standing formatting precondition). -/
theorem claim_c8_holds (query : List String) (count : Nat) (stdin : String)
    (t : Track) (rest : List Track) (h : t.artists ≠ []) :
    playSong (.search query false count) (fun _ => t :: rest) stdin
      = ⟨[joinSep " " query], false, .openUri ("spotify:track:" ++ t.id)⟩ := by
  have htd := trackDisplay_isSome t h
  simp [playSong, htd]

/-- Witness for C8. -/
theorem claim_c8_witness :
    playSong (.search ["q"] false 5) (fun _ => [sampleTrack 0, sampleTrack 1, sampleTrack 2]) ""
      = ⟨["q"], false, .openUri "spotify:track:id0"⟩ :=
  (claim_c8_holds ["q"] 5 "" (sampleTrack 0) [sampleTrack 1, sampleTrack 2]
    (by decide)).trans (by decide)

/-- Claim C9: `Uri(u)` resolution is the identity — `u` is passed to
`open_uri` unchanged for every string `u`, with no validation; no query is
ever sent to the search collaborator (the run log's `queries` is empty and
the result is independent of `doSearch`), and no prompt occurs. -/
theorem claim_c9_holds (u : String) (doSearch : String → List Track) (stdin : String) :
    playSong (.uri u) doSearch stdin = ⟨[], false, .openUri u⟩ := rfl

/-- Claim C10 (implicit, confirmed): the entered index is looked up in the
FULL search result, not the displayed prefix — an index `i` with
`count ≤ i < n` is accepted and plays `"spotify:track:" ++ tracks[i].id`
even though no presented candidate carries number `i`; only `i ≥ n` panics. -/
theorem claim_c10_holds (tracks : List Track) (query : List String) (count : Nat)
    (stdin : String) :
    (∀ i t, parseUsize stdin = some i →
      (∀ u ∈ tracks.take count, u.artists ≠ []) →
      count ≤ i → tracks[i]? = some t → t.artists ≠ [] →
      (playSong (.search query true count) (fun _ => tracks) stdin).outcome
          = .openUri ("spotify:track:" ++ t.id)
      ∧ ∀ p ∈ presented tracks count, p.1 ≠ i)
    ∧ (∀ i, parseUsize stdin = some i → tracks.length ≤ i →
        (playSong (.search query true count) (fun _ => tracks) stdin).outcome
          = .panicked) := by
  constructor
  · intro i t hp hdisp hci ht htne
    have hall := take_all_displayable tracks count hdisp
    have htd := trackDisplay_isSome t htne
    refine ⟨by simp [playSong, hall, hp, ht, htd], ?_⟩
    rintro ⟨j, x⟩ hmem hji
    rw [presented, List.mk_mem_enum_iff_getElem?] at hmem
    have hjlen : j < (tracks.take count).length := by
      by_contra hjj
      rw [List.getElem?_eq_none (by omega)] at hmem
      exact Option.noConfusion hmem
    rw [List.length_take] at hjlen
    have : j < count := lt_of_lt_of_le hjlen (Nat.min_le_left _ _)
    simp only at hji
    omega
  · intro i hp hge
    by_cases hall : (tracks.take count).all (fun u => (trackDisplay u).isSome) = true
    · have hnone : tracks[i]? = none := List.getElem?_eq_none hge
      simp [playSong, hall, hp, hnone]
    · have hf : (tracks.take count).all (fun u => (trackDisplay u).isSome) = false :=
        Bool.eq_false_iff.mpr hall
      simp [playSong, hf]

/-- Witness for C10: index 4 (beyond the 3 presented) plays track 4; index 9
(beyond the 5 results) panics. -/
theorem claim_c10_witness :
    ((playSong (.search ["q"] true 3) (fun _ => sampleTracks 5) "4").outcome
        = .openUri ("spotify:track:" ++ (sampleTrack 4).id))
    ∧ (playSong (.search ["q"] true 3) (fun _ => sampleTracks 5) "9").outcome
        = .panicked := by
  constructor
  · exact ((claim_c10_holds (sampleTracks 5) ["q"] 3 "4").1 4 (sampleTrack 4)
      (by decide) (by decide) (by decide) (by decide) (by decide)).1
  · exact (claim_c10_holds (sampleTracks 5) ["q"] 3 "9").2 9 (by decide) (by decide)
